import Mathlib

/-
  Verification of the FreeSocks control plane credential lifecycle engine.

  Shallow embedding of the JavaScript source:
    - src/handlers/update.js   (reconciliation scanner: processKey,
      processKeysForHostname, updateAccessKeys, queryActiveKeys)
    - handlers/delete.js       (revocation scanner: processKeyForDeletion,
      sendDeleteRequest, processKeysForServer, processAllKeys)
    - handlers/get.js          (endpoint scorer: getOptimalApiEndpoint)

  Modelling conventions:
    - ISO-8601 timestamp strings are represented as integers (milliseconds
      since the Unix epoch).  For equal-length ISO strings, lexicographic
      comparison and equality agree with numeric comparison and equality of
      the encoded instants, so all comparisons in the source are preserved.
    - A JavaScript record field that may be structurally absent (undefined),
      JSON null, or a value is modelled by the type JVal.
    - Floating point arithmetic on byte counts, scores and day counts is
      modelled with exact rationals; the source only adds, multiplies and
      compares these quantities.
    - The Cloudflare KV list primitive is modelled by a list of named keys
      together with an index cursor: list(cursor = i, limit = n) returns the
      next n keys starting at index i and a cursor (some j) when more keys
      remain, none when the listing is complete, exactly mirroring the
      list_complete / cursor contract used by the source.
    - Network and store outcomes that the source branches on (fetch results,
      endpoint lookups, oracle results) are passed in as explicit data.
-/

namespace FreeSocks

/-- A JavaScript field value: structurally absent (undefined), JSON null, or
a proper value. -/
inductive JVal (α : Type) where
  | undef : JVal α
  | null : JVal α
  | val : α → JVal α
deriving DecidableEq, Repr

/-- The nullish-coalescing backfill x ?? null used by processKey: absent
fields become JSON null, present fields are unchanged. -/
def JVal.orNull {α : Type} : JVal α → JVal α
  | .undef => .null
  | .null => .null
  | .val a => .val a

/-- Truthiness of a timestamp-valued field: an ISO timestamp string is a
nonempty string, hence truthy; null and undefined are falsy. -/
def JVal.truthyTime : JVal Int → Bool
  | .val _ => true
  | _ => false

/-- Truthiness of a boolean-valued field: only the value true is truthy. -/
def JVal.truthyBool : JVal Bool → Bool
  | .val b => b
  | _ => false

/-- A stored credential record (the fields read and written by the
reconciliation and revocation scanners). -/
structure KeyRecord where
  creationTime : Int
  deletionTime : JVal Int
  lastSeen : JVal Int
  currentlyConnected : JVal Bool
  s3Paths : List String
deriving DecidableEq, Repr

/-- Per-key activity data from the usage oracle: accumulated bytes and the
latest observation timestamp. -/
structure Activity where
  totalBytes : ℚ
  lastSeen : Int
deriving DecidableEq, Repr

/-- The field backfill performed by processKey (update.js lines 209 to 214):
each of deletionTime, lastSeen, currentlyConnected is replaced by
field ?? null. -/
def backfill (r : KeyRecord) : KeyRecord :=
  { r with
    deletionTime := r.deletionTime.orNull
    lastSeen := r.lastSeen.orNull
    currentlyConnected := r.currentlyConnected.orNull }

/-- The activity test of update.js line 249: the key id is present in the
snapshot and its totalBytes is positive. -/
def isActiveIn (act : Option Activity) : Bool :=
  match act with
  | some a => decide (a.totalBytes > 0)
  | none => false

/-- The snapshot timestamp read on the active branch of update.js line 255. -/
def actLastSeen (act : Option Activity) : Int :=
  match act with
  | some a => a.lastSeen
  | none => 0

/-- Result of one processKey call: the record stored afterwards, whether a
credential-store put was issued, and whether an entry was pushed onto the
updatedKeys report. -/
structure ProcKeyOut where
  stored : KeyRecord
  wrote : Bool
  reported : Bool
deriving DecidableEq, Repr

/-- Embedding of processKey (update.js lines 204 to 292) for one parsed
record.  The needsUpdate comparison via JSON.stringify distinguishes exactly
a structurally absent field from a null one, which is the equality test
backfill r = r in this model.  The hasChanges disjunction is transcribed
verbatim from line 258. -/
def processKey (r : KeyRecord) (act : Option Activity) (isDryRun : Bool) :
    ProcKeyOut :=
  let u := backfill r
  if u ≠ r then
    -- backfill pass for a record with missing fields; put unless dry run
    { stored := if isDryRun then r else u
      wrote := !isDryRun
      reported := true }
  else if u.deletionTime.truthyTime then
    -- tombstoned record: skip entirely
    { stored := r, wrote := false, reported := false }
  else
    let active := isActiveIn act
    let finalLastSeen : JVal Int :=
      if active then .val (actLastSeen act) else u.lastSeen
    let final : KeyRecord :=
      { u with currentlyConnected := .val active, lastSeen := finalLastSeen }
    let hasChanges :=
      active || decide (u.currentlyConnected ≠ JVal.val active) ||
        (active && decide (u.lastSeen ≠ finalLastSeen))
    if hasChanges then
      { stored := if isDryRun then r else final
        wrote := !isDryRun
        reported := true }
    else
      { stored := r, wrote := false, reported := false }

/-- Embedding of the day count of delete.js lines 189 to 191.  The source
computes (now - new Date(keyData.lastSeen)) / 86400000.  With lastSeen null,
new Date(null) is the Unix epoch; with lastSeen structurally absent,
new Date(undefined) is an invalid date and the difference is NaN, modelled
here as none. -/
def daysSinceLastSeen (now : Int) (lastSeen : JVal Int) : Option ℚ :=
  match lastSeen with
  | .undef => none
  | .null => some ((now : ℚ) / 86400000)
  | .val t => some (((now - t : Int) : ℚ) / 86400000)

/-- The deletion predicate of delete.js line 205:
daysSinceLastSeen > EXPIRATION_DAYS and currentlyConnected falsy.  A NaN day
count (absent lastSeen) fails the first comparison, so the predicate is
false. -/
def shouldDelete (expirationDays : ℚ) (now : Int) (r : KeyRecord) : Bool :=
  match daysSinceLastSeen now r.lastSeen with
  | none => false
  | some d => decide (d > expirationDays) && !r.currentlyConnected.truthyBool

/-- A mutating side effect issued against the outside world: a credential
store put, a backend-side DELETE request, an S3 object deletion, or a write
or delete of a persisted scan cursor in the state store. -/
inductive Effect where
  | putKey : String → KeyRecord → Effect
  | backendDelete : String → Effect
  | s3Delete : List String → Effect
  | cursorPut : String → String × Option Nat → Effect
  | cursorDelete : String → Effect
deriving DecidableEq, Repr

/-- Outcome of one HTTP fetch as the source distinguishes them: a success
response, a non-success status with a body, or a thrown transport error. -/
inductive FetchOutcome where
  | ok : FetchOutcome
  | httpError : Nat → String → FetchOutcome
  | transportError : String → FetchOutcome
deriving DecidableEq, Repr

/-- Result shape of sendDeleteRequest. -/
structure SendDelResult where
  success : Bool
  error : Option String
deriving DecidableEq, Repr

/-- Embedding of sendDeleteRequest (delete.js lines 271 to 286): a
non-success status and a thrown transport error both come back as
success false with a message; only a success response yields success
true. -/
def sendDeleteRequest (o : FetchOutcome) : SendDelResult :=
  match o with
  | .ok => { success := true, error := none }
  | .httpError s body => { success := false, error := some (toString s ++ body) }
  | .transportError msg => { success := false, error := some msg }

/-- Hostname half of a composite key name, from split on the -key-
separator (delete.js line 213). -/
def hostnameOf (k : String) : String := (k.splitOn "-key-").headD ""

/-- Access key half of a composite key name (delete.js line 213). -/
def accessKeyOf (k : String) : String := ((k.splitOn "-key-").drop 1).headD ""

/-- External key id extraction of update.js line 248: split on every dash
and take the last token. -/
def extKeyId (k : String) : String := (k.splitOn "-").getLastD ""

/-- Outcome of the best-effort S3 object deletion attempt (delete.js lines
233 to 242): full success, partial failure, or a thrown error that is
caught and recorded. -/
inductive S3Outcome where
  | fullSuccess : S3Outcome
  | partialFailure : S3Outcome
  | thrown : String → S3Outcome
deriving DecidableEq, Repr

/-- Static configuration of the revocation scanner. -/
structure DelConfig where
  expirationDays : ℚ
  maxKeysPerRun : Nat
  deleteS3Objects : Bool
  s3Providers : List String
deriving Repr

/-- External-world data a revocation pass branches on: the endpoint record
for a hostname, the outcome of the backend DELETE request for a given URL,
and the outcome of an S3 deletion for a given path list. -/
structure DelEnv where
  endpointFor : String → Option String
  delOutcome : String → FetchOutcome
  s3Outcome : List String → S3Outcome

/-- Report status of one key in the revocation report (the status strings
Would delete, Deleted, Not deleted, Error of delete.js). -/
inductive DelStatus where
  | wouldDelete : DelStatus
  | deleted : DelStatus
  | notDeleted : DelStatus
  | errored : DelStatus
deriving DecidableEq, Repr

/-- Result of one processKeyForDeletion call: the report entry pushed onto
processedKeys, the record left in the store, and the side effects issued. -/
structure DelKeyOut where
  keyName : String
  status : DelStatus
  stored : KeyRecord
  effects : List Effect
deriving DecidableEq, Repr

/-- Embedding of processKeyForDeletion (delete.js lines 188 to 269).
When shouldDelete holds and this is not a dry run: a missing endpoint
record throws before any request is sent; otherwise the backend DELETE is
issued, and only on its success are the optional S3 deletion (best effort,
its failure is caught) and the tombstone write performed.  A failed backend
DELETE throws, the catch records status Error, and the record is left
untouched. -/
def processKeyForDeletion (cfg : DelConfig) (env : DelEnv) (now : Int)
    (keyName : String) (r : KeyRecord) (isDryRun : Bool) : DelKeyOut :=
  if shouldDelete cfg.expirationDays now r then
    if isDryRun then
      { keyName := keyName, status := .wouldDelete, stored := r, effects := [] }
    else
      match env.endpointFor (hostnameOf keyName) with
      | none =>
        -- the thrown lookup failure is caught at line 255
        { keyName := keyName, status := .errored, stored := r, effects := [] }
      | some apiUrl =>
        let url := apiUrl ++ "/access-keys/" ++ accessKeyOf keyName
        let del := sendDeleteRequest (env.delOutcome url)
        if del.success then
          let s3Effects :=
            if cfg.deleteS3Objects && !r.s3Paths.isEmpty &&
                !cfg.s3Providers.isEmpty then
              [Effect.s3Delete r.s3Paths]
            else []
          let stored :=
            { r with deletionTime := .val now, currentlyConnected := .null }
          { keyName := keyName
            status := .deleted
            stored := stored
            effects := Effect.backendDelete url :: s3Effects ++
              [Effect.putKey keyName stored] }
        else
          { keyName := keyName
            status := .errored
            stored := r
            effects := [Effect.backendDelete url] }
  else
    { keyName := keyName, status := .notDeleted, stored := r, effects := [] }

/-- A named credential as returned by a prefix listing of the credential
store, paired with its parsed record. -/
structure NamedKey where
  name : String
  record : KeyRecord
deriving DecidableEq, Repr

/-- Aggregate result of processKeysForServer and processAllKeys: the
processedKeys report entries, the error strings, the composite resume
cursor, and the side effects issued. -/
structure DelScanOut where
  entries : List DelKeyOut
  errors : List String
  nextCursor : Option (String × Option Nat)
  effects : List Effect
deriving Repr

/-- Embedding of the page loop of processKeysForServer (delete.js lines
120 to 143).  The credential store listing is a list of named keys and the
store cursor is an index: a page request at index i with a limit returns
the next limit keys and a cursor some j when keys remain, none when the
listing is complete.  The budget check sits inside the per-key loop, so it
fires exactly when the running count reaches maxKeysPerRun at the end of a
nonempty page, returning the composite cursor built from the cursor of the
page just listed. -/
def processKeysForServerLoop (cfg : DelConfig) (env : DelEnv) (now : Int)
    (isDryRun : Bool) (server : String) (keys : List NamedKey)
    (i count : Nat) : DelScanOut :=
  let page := (keys.drop i).take (min (cfg.maxKeysPerRun - count) 1000)
  let outs := page.map
    (fun k => processKeyForDeletion cfg env now k.name k.record isDryRun)
  let j := i + page.length
  let cur : Option Nat := if j < keys.length then some j else none
  let count2 := count + page.length
  if 0 < page.length ∧ cfg.maxKeysPerRun ≤ count2 then
    -- early return from inside the for loop with the composite cursor
    { entries := outs
      errors := []
      nextCursor := some (server, cur)
      effects := outs.foldr (fun o acc => o.effects ++ acc) [] }
  else if _h : j < keys.length ∧ 0 < page.length then
    let rest := processKeysForServerLoop cfg env now isDryRun server keys j count2
    { entries := outs ++ rest.entries
      errors := rest.errors
      nextCursor := rest.nextCursor
      effects := outs.foldr (fun o acc => o.effects ++ acc) [] ++ rest.effects }
  else
    -- listing complete (or an empty page, which the source only reaches
    -- when the budget was already exhausted on entry)
    { entries := outs
      errors := []
      nextCursor := none
      effects := outs.foldr (fun o acc => o.effects ++ acc) [] }
termination_by keys.length - i
decreasing_by
  simp only [List.length_take, List.length_drop] at *
  omega

/-- Embedding of processKeysForServer (delete.js lines 113 to 146): the
page loop started with a null store cursor and a zero running count. -/
def processKeysForServer (cfg : DelConfig) (env : DelEnv) (now : Int)
    (isDryRun : Bool) (server : String) (keys : List NamedKey) : DelScanOut :=
  processKeysForServerLoop cfg env now isDryRun server keys 0 0

/-- One backend as seen by the revocation scan: its hostname and the full
prefix listing of its credentials. -/
structure DelBackend where
  name : String
  keys : List NamedKey
deriving Repr

/-- Embedding of the hostname loop of processAllKeys (delete.js lines 164
to 183).  The source destructures processedKeys and nextCursor from the
object returned by processKeysForServer, appends sub.processedKeys to the
report, and then spreads processedKeys.errors into errors.push; since the
destructured processedKeys is an array, its errors property is undefined
and the spread throws a TypeError on every backend.  The per-hostname catch
records the error string and the loop continues, so globalKeyCount is never
incremented, the budget break and the nextCursor assignment after it are
unreachable, and every backend is scanned with a fresh budget. -/
def processAllKeysLoop (cfg : DelConfig) (env : DelEnv) (now : Int)
    (isDryRun : Bool) (startHostname : Option String) :
    List DelBackend → DelScanOut
  | [] =>
    { entries := [], errors := [], nextCursor := none, effects := [] }
  | b :: rest =>
    if startHostname ≠ none ∧ startHostname ≠ some b.name then
      processAllKeysLoop cfg env now isDryRun startHostname rest
    else
      let sub := processKeysForServer cfg env now isDryRun b.name b.keys
      let tail := processAllKeysLoop cfg env now isDryRun none rest
      { entries := sub.entries ++ tail.entries
        errors := ("Error processing hostname " ++ b.name) :: tail.errors
        nextCursor := tail.nextCursor
        effects := sub.effects ++ tail.effects }

/-- Embedding of processAllKeys (delete.js lines 148 to 186).  The persisted
composite cursor is split into a start hostname and a store cursor token;
the token is parsed into currentCursor but never passed to
processKeysForServer, so only the hostname half matters and is modelled. -/
def processAllKeys (cfg : DelConfig) (env : DelEnv) (now : Int)
    (isDryRun : Bool) (startHostname : Option String)
    (backends : List DelBackend) : DelScanOut :=
  processAllKeysLoop cfg env now isDryRun startHostname backends

/-- The state-store key holding the revocation resume cursor. -/
def deleteCursorKey : String := "delete_script_cursor"

/-- The state-store key holding the reconciliation resume cursor. -/
def updateCursorKey : String := "update_script_cursor"

/-- Embedding of the scheduled-scan path of the delete handler
(delete.js lines 59 to 67): run processAllKeys from the persisted cursor,
then, only when not a dry run, persist the returned cursor or delete the
state key when the cursor is empty.  Returns the scan report and the full
effect list of the invocation. -/
def deleteScheduledRun (cfg : DelConfig) (env : DelEnv) (now : Int)
    (isDryRun : Bool) (startHostname : Option String)
    (backends : List DelBackend) : DelScanOut × List Effect :=
  let scan := processAllKeys cfg env now isDryRun startHostname backends
  let cursorEffects : List Effect :=
    if isDryRun then []
    else match scan.nextCursor with
      | some c => [Effect.cursorPut deleteCursorKey c]
      | none => [Effect.cursorDelete deleteCursorKey]
  (scan, scan.effects ++ cursorEffects)

/-- Result of the page loop of processKeysForHostname: how many credentials
were processed, the store cursor to continue from, the puts issued, and the
key names pushed onto the updatedKeys report. -/
structure UpdPageOut where
  processed : Nat
  nextCursor : Option Nat
  writes : List Effect
  reported : List String
deriving Repr

/-- Embedding of processKeysForHostname (update.js lines 184 to 202): page
through the backend's credentials with limit min(remainingKeys, 1000),
apply processKey to each, and loop while the store returns a cursor and
budget remains.  The per-key budget break can only fire on the last key of
a page because the page limit never exceeds the remaining budget, so every
listed page is processed in full.  The returned cursor is the store cursor
of the last page listed, which can be none when that page ended the
listing even though the budget ran out. -/
def processKeysForHostname (snap : List (String × Activity)) (isDryRun : Bool)
    (keys : List NamedKey) (i m : Nat) : UpdPageOut :=
  let page := (keys.drop i).take (min m 1000)
  let outs := page.map
    (fun k => (k.name, processKey k.record (snap.lookup (extKeyId k.name)) isDryRun))
  let writes := outs.foldr
    (fun p acc => if p.2.wrote then Effect.putKey p.1 p.2.stored :: acc else acc) []
  let reported := outs.foldr
    (fun p acc => if p.2.reported then p.1 :: acc else acc) []
  let j := i + page.length
  if _h : j < keys.length ∧ page.length < m then
    let rest := processKeysForHostname snap isDryRun keys j (m - page.length)
    { processed := page.length + rest.processed
      nextCursor := rest.nextCursor
      writes := writes ++ rest.writes
      reported := reported ++ rest.reported }
  else
    { processed := page.length
      nextCursor := if j < keys.length then some j else none
      writes := writes
      reported := reported }
termination_by m
decreasing_by
  simp only [List.length_take, List.length_drop] at *
  omega

/-- Per-backend preparation outcome in updateAccessKeys: the endpoint
record can be missing or unparseable, the usage oracle query can fail, or a
snapshot of active keys is available. -/
inductive UpdPrep where
  | noEndpoint : UpdPrep
  | badEndpointData : UpdPrep
  | oracleFail : UpdPrep
  | ready : List (String × Activity) → UpdPrep

/-- One backend as seen by the reconciliation scan: its hostname, its
preparation outcome, and the full prefix listing of its credentials. -/
structure UpdBackend where
  name : String
  prep : UpdPrep
  keys : List NamedKey

/-- Aggregate result of updateAccessKeys: the report of updated key names,
the error strings, the composite resume cursor, and the puts issued. -/
structure UpdAllOut where
  reported : List String
  errors : List String
  nextCursor : Option (String × Option Nat)
  writes : List Effect

/-- Embedding of the hostname loop of updateAccessKeys (update.js lines
137 to 179).  A resume cursor names a start hostname: backends before it
are skipped, the named backend resumes from the store cursor token, and
later backends start fresh.  The error continue paths leave the resumed
store cursor in place, exactly as the source does.  When the global count
reaches maxKeys the loop breaks with the composite cursor of the current
backend. -/
def updateLoop (isDryRun : Bool) (maxKeys : Nat) (startHostname : Option String)
    (cur : Option Nat) (globalCount : Nat) : List UpdBackend → UpdAllOut
  | [] => { reported := [], errors := [], nextCursor := none, writes := [] }
  | b :: rest =>
    if startHostname ≠ none ∧ startHostname ≠ some b.name then
      updateLoop isDryRun maxKeys startHostname cur globalCount rest
    else
      match b.prep with
      | .noEndpoint =>
        let tail := updateLoop isDryRun maxKeys none cur globalCount rest
        { tail with errors :=
            ("Endpoint not found for hostname: " ++ b.name) :: tail.errors }
      | .badEndpointData =>
        let tail := updateLoop isDryRun maxKeys none cur globalCount rest
        { tail with errors :=
            ("Invalid endpoint data for hostname: " ++ b.name) :: tail.errors }
      | .oracleFail =>
        let tail := updateLoop isDryRun maxKeys none cur globalCount rest
        { tail with errors :=
            ("Error querying active keys for " ++ b.name) :: tail.errors }
      | .ready snap =>
        let res := processKeysForHostname snap isDryRun b.keys (cur.getD 0)
          (maxKeys - globalCount)
        let g2 := globalCount + res.processed
        if maxKeys ≤ g2 then
          { reported := res.reported
            errors := []
            nextCursor := some (b.name, res.nextCursor)
            writes := res.writes }
        else
          let tail := updateLoop isDryRun maxKeys none none g2 rest
          { reported := res.reported ++ tail.reported
            errors := tail.errors
            nextCursor := tail.nextCursor
            writes := res.writes ++ tail.writes }

/-- Embedding of updateAccessKeys (update.js lines 120 to 182): the
persisted composite cursor is split into a start hostname and a store
cursor token, and the hostname loop is run over the full backend listing
with a zero global count. -/
def updateAccessKeys (isDryRun : Bool) (maxKeys : Nat)
    (startCursor : Option (String × Option Nat))
    (backends : List UpdBackend) : UpdAllOut :=
  updateLoop isDryRun maxKeys (startCursor.map Prod.fst)
    (startCursor.bind Prod.snd) 0 backends

/-- Embedding of the scheduled-scan path of the update handler (update.js
lines 50 to 57): run updateAccessKeys from the persisted cursor, then,
only when not a dry run, persist the returned cursor or delete the state
key when the cursor is empty.  Returns the scan report and the full effect
list of the invocation. -/
def updateScheduledRun (isDryRun : Bool) (maxKeys : Nat)
    (startCursor : Option (String × Option Nat))
    (backends : List UpdBackend) : UpdAllOut × List Effect :=
  let scan := updateAccessKeys isDryRun maxKeys startCursor backends
  let cursorEffects : List Effect :=
    if isDryRun then []
    else match scan.nextCursor with
      | some c => [Effect.cursorPut updateCursorKey c]
      | none => [Effect.cursorDelete updateCursorKey]
  (scan, scan.writes ++ cursorEffects)

/-- The stored record after a sequence of reconciliation passes, one
activity snapshot per pass (wet runs: isDryRun false). -/
def runPasses (r : KeyRecord) : List (Option Activity) → KeyRecord
  | [] => r
  | a :: rest => runPasses ((processKey r a false).stored) rest

/-- Timestamp non-regression between two field values: whenever the first
holds a timestamp, the second holds one at least as large. -/
def lastSeenLe (x y : JVal Int) : Prop :=
  ∀ t, x = .val t → ∃ t2, y = .val t2 ∧ t ≤ t2

/-- Guard under which one snapshot cannot regress a record: when the record
is active in the snapshot, the snapshot timestamp is not earlier than the
stored one. -/
def snapOk (r : KeyRecord) (a : Option Activity) : Prop :=
  ∀ act, a = some act → 0 < act.totalBytes →
    ∀ t, r.lastSeen = .val t → t ≤ act.lastSeen

/-- The per-pass guard threaded through a sequence of passes. -/
def snapsOk (r : KeyRecord) : List (Option Activity) → Prop
  | [] => True
  | a :: rest => snapOk r a ∧ snapsOk ((processKey r a false).stored) rest

/-- One element of the Prometheus result array as queryActiveKeys inspects
it (update.js line 314): the access_key label when present, and the value
pair of an evaluation timestamp and a byte count when it is a well-formed
two-element array.  Timestamps are modelled numerically; the source turns
them into equal-length ISO strings, for which comparison agrees with the
numeric order. -/
structure PromItem where
  accessKey : Option String
  value : Option (Int × ℚ)
deriving DecidableEq, Repr

/-- Outcome of the wrapped Prometheus query as queryActiveKeys branches on
it: a throw escaping the retry wrapper, a success false result from
queryPrometheus (which itself catches transport errors and non-success
statuses), a response without a result array, or the result array. -/
inductive PromOutcome where
  | thrown : String → PromOutcome
  | queryFail : String → PromOutcome
  | badShape : PromOutcome
  | ok : List PromItem → PromOutcome

/-- Replace the value stored under a key in an association list, appending
the binding when the key is absent; this is JS object assignment for the
activeKeys accumulator. -/
def setA : List (String × Activity) → String → Activity → List (String × Activity)
  | [], k, a => [(k, a)]
  | (k0, a0) :: t, k, a =>
    if k0 = k then (k0, a) :: t else (k0, a0) :: setA t k a

/-- One iteration of the forEach of update.js lines 313 to 330: items
without an access_key label or a well-formed value pair are ignored; a
first occurrence initialises the entry with the item's bytes and
timestamp; a repeated occurrence accumulates bytes and keeps the later
timestamp. -/
def addItem (m : List (String × Activity)) (it : PromItem) :
    List (String × Activity) :=
  match it.accessKey, it.value with
  | some k, some (ts, bytes) =>
    match m.lookup k with
    | none => setA m k { totalBytes := bytes, lastSeen := ts }
    | some a =>
      setA m k
        { totalBytes := a.totalBytes + bytes
          lastSeen := if a.lastSeen < ts then ts else a.lastSeen }
  | _, _ => m

/-- The activeKeys accumulator built by the forEach over the result
array. -/
def aggregateActiveKeys (items : List PromItem) : List (String × Activity) :=
  items.foldl addItem []

/-- Result shape of queryActiveKeys: the success flag callers must check,
the per-key activity map, and the diagnostic message on failure. -/
structure ActiveKeysResult where
  success : Bool
  data : List (String × Activity)
  error : Option String
deriving Repr

/-- Embedding of queryActiveKeys (update.js lines 294 to 350): every
failure shape becomes success false with a diagnostic message, and a
result array is aggregated into the per-key activity map; the function
never propagates an exception. -/
def queryActiveKeys : PromOutcome → ActiveKeysResult
  | .thrown msg =>
    { success := false, data := []
      error := some ("Error querying Prometheus: " ++ msg) }
  | .queryFail msg =>
    { success := false, data := []
      error := some ("Prometheus query unsuccessful: " ++ msg) }
  | .badShape =>
    { success := false, data := []
      error := some "Unexpected Prometheus response structure" }
  | .ok items =>
    { success := true, data := aggregateActiveKeys items, error := none }

/-- The well-formed tuples of the result array carrying a given key id, in
order; used to state what the aggregation computes. -/
def keyEntries (k : String) (items : List PromItem) : List (Int × ℚ) :=
  items.filterMap (fun it =>
    match it.accessKey, it.value with
    | some k0, some v => if k0 = k then some v else none
    | _, _ => none)

/-- Sum of the byte counts of a list of tuples. -/
def sumBytes (es : List (Int × ℚ)) : ℚ := (es.map Prod.snd).sum

/-- Latest timestamp of a nonempty list of tuples, seeded with the first
tuple's timestamp exactly as the accumulator is. -/
def tsMax : List (Int × ℚ) → Int
  | [] => 0
  | e :: t => t.foldl (fun acc x => max acc x.1) e.1

/-- Latest timestamp of a list of tuples, seeded with a given initial
timestamp; the recursion pattern of the accumulator update. -/
def maxFrom (t0 : Int) (es : List (Int × ℚ)) : Int :=
  es.foldl (fun acc x => max acc x.1) t0

/-- What one accumulator entry holds after folding a run of tuples for its
key over an optional prior entry; used only to state the aggregation
invariant. -/
def combineAgg (base : Option Activity) (es : List (Int × ℚ)) :
    Option Activity :=
  match base, es with
  | none, [] => none
  | none, e :: t =>
    some { totalBytes := sumBytes (e :: t), lastSeen := maxFrom e.1 t }
  | some a, es =>
    some { totalBytes := a.totalBytes + sumBytes es
           lastSeen := maxFrom a.lastSeen es }

/-- Successful probe data for one backend: measured latency and the length
of the returned accessKeys array. -/
structure ProbeOk where
  latency : ℚ
  accessKeyCount : Nat
deriving DecidableEq, Repr

/-- The weighted score of get.js line 219. -/
def score (wLatency wCount : ℚ) (p : ProbeOk) : ℚ :=
  wLatency * p.latency + wCount * (p.accessKeyCount : ℚ)

/-- The endpointScores array built by the concurrent probes of
getOptimalApiEndpoint (get.js lines 189 to 232): backends whose probe
timed out, errored, returned a non-success status, or had no endpoint
record are simply absent.  The pushes happen in promise completion order;
this model lists them in backend listing order, which only affects which
of several equal minimal scores is returned. -/
def endpointScores (wLatency wCount : ℚ)
    (probes : List (String × Option ProbeOk)) : List (String × ℚ) :=
  probes.foldr
    (fun pr acc =>
      match pr.2 with
      | some p => (pr.1, score wLatency wCount p) :: acc
      | none => acc) []

/-- First element with minimal score, as produced by the ascending
comparator sort of get.js line 244 followed by taking index zero. -/
def pickMinScore (e : String × ℚ) (t : List (String × ℚ)) : String × ℚ :=
  t.foldl (fun best x => if x.2 < best.2 then x else best) e

/-- Embedding of getOptimalApiEndpoint (get.js lines 185 to 247): throws
the NoAvailableBackends error when every backend was excluded, otherwise
returns the backend whose score is minimal. -/
def getOptimalApiEndpoint (wLatency wCount : ℚ)
    (probes : List (String × Option ProbeOk)) : Except String String :=
  match endpointScores wLatency wCount probes with
  | [] => .error "No available API endpoints."
  | e :: t => .ok (pickMinScore e t).1

/-- Concrete revocation configuration for the budget scenario: expiration
90 days, a budget of two keys per invocation, S3 deletion disabled. -/
def budgetCfg : DelConfig :=
  { expirationDays := 90, maxKeysPerRun := 2
    deleteS3Objects := false, s3Providers := [] }

/-- Concrete environment for the budget scenario; it is never consulted
because no key satisfies the deletion predicate. -/
def budgetEnv : DelEnv :=
  { endpointFor := fun _ => none
    delOutcome := fun _ => .ok
    s3Outcome := fun _ => .fullSuccess }

/-- A record the deletion predicate rejects: no lastSeen field at all (a
legacy record) and currently connected. -/
def connectedRecord : KeyRecord :=
  { creationTime := 0, deletionTime := .null, lastSeen := .undef
    currentlyConnected := .val true, s3Paths := [] }

/-- Two backends with three credentials each for the budget scenario. -/
def budgetBackends : List DelBackend :=
  [ { name := "h1"
      keys := [ ⟨"h1-key-a", connectedRecord⟩, ⟨"h1-key-b", connectedRecord⟩,
                ⟨"h1-key-c", connectedRecord⟩ ] },
    { name := "h2"
      keys := [ ⟨"h2-key-a", connectedRecord⟩, ⟨"h2-key-b", connectedRecord⟩,
                ⟨"h2-key-c", connectedRecord⟩ ] } ]

/-! Theorems. -/

/-- C1: evaluation of the revocation scan at the failing input.  With a
budget of maxKeysPerRun = 2 and two backends of three credentials each, a
single invocation started from an empty cursor processes four credentials
(two per backend) and returns an empty cursor although four credentials
remain unprocessed, because the spread of processedKeys.errors throws on
every backend, the catch swallows the budget accounting, and the budget
break is unreachable.  The claim requires at most two processed
credentials and a non-empty composite cursor. -/
theorem processAllKeys_budget_violation :
    (processAllKeys budgetCfg budgetEnv 0 false none budgetBackends).entries.length = 4 ∧
    (processAllKeys budgetCfg budgetEnv 0 false none budgetBackends).nextCursor = none ∧
    (processAllKeys budgetCfg budgetEnv 0 false none budgetBackends).errors.length = 2 := by
  refine ⟨?_, ?_, ?_⟩ <;>
    simp [processAllKeys, processAllKeysLoop, processKeysForServer,
      processKeysForServerLoop, processKeyForDeletion, shouldDelete,
      daysSinceLastSeen, budgetCfg, budgetEnv, budgetBackends, connectedRecord]

/-- C2 counterexample: a field-complete record that is active in the
snapshot with an unchanged timestamp.  The pass stores back the identical
record, yet issues a put (hasChanges is true whenever isActive is), so a
second pass with the same snapshot — which sees the very same stored
record — performs another write.  This refutes both persist-only-on-change
and zero-writes-on-rescan. -/
theorem rescan_write_counterexample :
    (processKey ⟨0, .null, .val 5, .val true, []⟩ (some ⟨1, 5⟩) false).stored =
      ⟨0, .null, .val 5, .val true, []⟩ ∧
    (processKey ⟨0, .null, .val 5, .val true, []⟩ (some ⟨1, 5⟩) false).wrote = true := by
  refine ⟨by decide, by decide⟩

/-- C3: the deletion decision of the revocation scanner equals the
specified predicate for every record with a stored timestamp, a connected
credential is never deleted, and the 91-day idle scenario with a 90-day
expiration is deleted exactly when not connected. -/
theorem shouldDelete_spec :
    (∀ (E : ℚ) (now t : Int) (r : KeyRecord), r.lastSeen = .val t →
      shouldDelete E now r =
        (decide (((now - t : Int) : ℚ) / 86400000 > E) &&
          !r.currentlyConnected.truthyBool)) ∧
    (∀ (E : ℚ) (now : Int) (r : KeyRecord), r.currentlyConnected = .val true →
      shouldDelete E now r = false) ∧
    shouldDelete 90 (91 * 86400000)
      ⟨0, .null, .val 0, .val false, []⟩ = true ∧
    (∀ now : Int, shouldDelete 90 now ⟨0, .null, .val 0, .val true, []⟩ = false) := by
  refine ⟨?_, ?_, ?_, ?_⟩
  · intro E now t r h
    simp [shouldDelete, daysSinceLastSeen, h]
  · intro E now r h
    cases hls : r.lastSeen <;>
      simp [shouldDelete, daysSinceLastSeen, hls, h, JVal.truthyBool]
  · simp only [shouldDelete, daysSinceLastSeen, JVal.truthyBool]
    norm_num
  · intro now
    simp [shouldDelete, daysSinceLastSeen, JVal.truthyBool]

/-- C3 witness: the general predicate equation applied at a concrete
record one day past a one-day expiration. -/
theorem shouldDelete_spec_witness :
    shouldDelete 1 (2 * 86400000) ⟨0, .null, .val 0, .val false, []⟩ =
      (decide (((2 * 86400000 - 0 : Int) : ℚ) / 86400000 > 1) &&
        !(JVal.val false).truthyBool) :=
  shouldDelete_spec.1 1 (2 * 86400000) 0 ⟨0, .null, .val 0, .val false, []⟩ rfl

/-- C5 counterexample: a record with deletionTime set but a structurally
absent lastSeen field is not skipped: the backfill branch persists it and
its lastSeen field changes from absent to null. -/
theorem tombstone_backfill_counterexample :
    (processKey ⟨0, .val 1000, .undef, .null, []⟩ none false).wrote = true ∧
    (processKey ⟨0, .val 1000, .undef, .null, []⟩ none false).stored.lastSeen =
      .null := by
  refine ⟨by decide, by decide⟩

/-- C6 counterexample: a record with stored lastSeen 100 processed against
a snapshot in which it is active with the older timestamp 50: the pass
persists lastSeen 50, regressing the stored value. -/
theorem lastSeen_regression_counterexample :
    (processKey ⟨0, .null, .val 100, .val true, []⟩ (some ⟨1, 50⟩) false).wrote =
      true ∧
    (processKey ⟨0, .null, .val 100, .val true, []⟩ (some ⟨1, 50⟩) false).stored.lastSeen =
      .val 50 := by
  refine ⟨by decide, by decide⟩

/-- C10: a record whose lastSeen field is JSON null ages from the Unix
epoch, so whenever the run time is more than expirationDays past the epoch
and the record is not currently connected it satisfies the deletion
predicate, whatever its creationTime; a record whose lastSeen field is
structurally absent yields a NaN day count and never satisfies the
predicate. -/
theorem lastSeen_null_vs_absent :
    (∀ (E : ℚ) (now : Int) (r : KeyRecord), r.lastSeen = .null →
      r.currentlyConnected.truthyBool = false → E < (now : ℚ) / 86400000 →
      shouldDelete E now r = true) ∧
    (∀ (E : ℚ) (now : Int) (r : KeyRecord), r.lastSeen = .undef →
      shouldDelete E now r = false) := by
  constructor
  · intro E now r hls hcc hgt
    simp [shouldDelete, daysSinceLastSeen, hls, hcc, hgt]
  · intro E now r hls
    simp [shouldDelete, daysSinceLastSeen, hls]

/-- C10 witness: a record created at the run instant itself, with null
lastSeen and not connected, is eligible at a run time 91 days past the
epoch with a 90-day expiration; a twin record with the field absent is
not. -/
theorem lastSeen_null_vs_absent_witness :
    shouldDelete 90 (91 * 86400000)
      ⟨91 * 86400000, .null, .null, .val false, []⟩ = true ∧
    shouldDelete 90 (91 * 86400000)
      ⟨91 * 86400000, .null, .undef, .val false, []⟩ = false :=
  ⟨lastSeen_null_vs_absent.1 90 (91 * 86400000)
      ⟨91 * 86400000, .null, .null, .val false, []⟩ rfl rfl (by norm_num),
    lastSeen_null_vs_absent.2 90 (91 * 86400000)
      ⟨91 * 86400000, .null, .undef, .val false, []⟩ rfl⟩

/-- Branch lemma: a record needing backfill is persisted as its backfilled
form (unless dry run) and reported. -/
theorem processKey_backfill_branch (r : KeyRecord) (a : Option Activity)
    (dry : Bool) (hc : backfill r ≠ r) :
    processKey r a dry = ⟨if dry then r else backfill r, !dry, true⟩ := by
  simp [processKey, hc]

/-- Branch lemma: a field-complete tombstoned record is skipped without a
write or a report entry. -/
theorem processKey_tombstone_branch (r : KeyRecord) (a : Option Activity)
    (dry : Bool) (hc : backfill r = r) (ht : r.deletionTime.truthyTime = true) :
    processKey r a dry = ⟨r, false, false⟩ := by
  simp [processKey, hc, ht]

/-- Branch lemma: a field-complete live record not active in the snapshot
is written exactly when its currentlyConnected is not already the value
false; lastSeen is left alone. -/
theorem processKey_inactive_branch (r : KeyRecord) (a : Option Activity)
    (dry : Bool) (hc : backfill r = r) (ht : r.deletionTime.truthyTime = false)
    (ha : isActiveIn a = false) :
    processKey r a dry =
      if r.currentlyConnected = JVal.val false then ⟨r, false, false⟩
      else
        ⟨if dry then r else { r with currentlyConnected := .val false },
          !dry, true⟩ := by
  by_cases hcc : r.currentlyConnected = JVal.val false <;>
    simp [processKey, hc, ht, ha, hcc]

/-- Branch lemma: a field-complete live record active in the snapshot is
always written (hasChanges starts with the isActive disjunct), with
currentlyConnected true and lastSeen overwritten by the snapshot
timestamp. -/
theorem processKey_active_branch (r : KeyRecord) (a : Option Activity)
    (dry : Bool) (hc : backfill r = r) (ht : r.deletionTime.truthyTime = false)
    (ha : isActiveIn a = true) :
    processKey r a dry =
      ⟨if dry then r
        else { r with currentlyConnected := .val true,
                      lastSeen := .val (actLastSeen a) }, !dry, true⟩ := by
  simp [processKey, hc, ht, ha]

/-- Field consequences of a field-complete record. -/
theorem backfill_fields (r : KeyRecord) (hc : backfill r = r) :
    r.deletionTime.orNull = r.deletionTime ∧
    r.lastSeen.orNull = r.lastSeen ∧
    r.currentlyConnected.orNull = r.currentlyConnected :=
  ⟨congrArg KeyRecord.deletionTime hc, congrArg KeyRecord.lastSeen hc,
    congrArg KeyRecord.currentlyConnected hc⟩

/-- C2 amended: for a field-complete record that is not active in the
snapshot, a second reconciliation pass with the same snapshot issues no
write and stores nothing new.  (Credentials active in the snapshot are
re-persisted on every pass, and a legacy record backfilled on the first
pass may receive one activity write on the second: see the
counterexample.) -/
theorem rescan_idempotent_inactive (r : KeyRecord) (a : Option Activity)
    (hc : backfill r = r) (ha : isActiveIn a = false) :
    (processKey (processKey r a false).stored a false).wrote = false ∧
    (processKey (processKey r a false).stored a false).stored =
      (processKey r a false).stored := by
  obtain ⟨hdt, hls, hcc⟩ := backfill_fields r hc
  by_cases ht : r.deletionTime.truthyTime = true
  · have h1 := processKey_tombstone_branch r a false hc ht
    simp [h1]
  · replace ht : r.deletionTime.truthyTime = false := by
      simpa using ht
    have h1 := processKey_inactive_branch r a false hc ht ha
    by_cases hcf : r.currentlyConnected = JVal.val false
    · simp [h1, hcf]
    · have hvf : (JVal.val false).orNull = JVal.val false := rfl
      have hc2 : backfill { r with currentlyConnected := JVal.val false } =
          { r with currentlyConnected := JVal.val false } := by
        simp [backfill, hdt, hls, hvf]
      have h2 := processKey_inactive_branch
        { r with currentlyConnected := JVal.val false } a false hc2 ht ha
      simp [h1, hcf, h2]

/-- C2 amended witness: a field-complete idle record, absent from the
snapshot, is untouched by a second pass. -/
theorem rescan_idempotent_inactive_witness :
    (processKey (processKey ⟨0, .null, .null, .val false, []⟩ none false).stored
      none false).wrote = false ∧
    (processKey (processKey ⟨0, .null, .null, .val false, []⟩ none false).stored
      none false).stored =
      (processKey ⟨0, .null, .null, .val false, []⟩ none false).stored :=
  rescan_idempotent_inactive ⟨0, .null, .null, .val false, []⟩ none rfl rfl

/-- C5 amended: a record with deletionTime set whose three lifecycle fields
are all structurally present is skipped by reconciliation with no write, no
report entry and no change; and every tombstone the revocation scanner
writes is of that field-complete shape with deletionTime set.  (A record
with deletionTime set but a structurally absent field instead takes the
backfill path once: see the counterexample.) -/
theorem tombstone_immutable_complete :
    (∀ (r : KeyRecord) (a : Option Activity) (dry : Bool),
      backfill r = r → r.deletionTime.truthyTime = true →
      processKey r a dry = ⟨r, false, false⟩) ∧
    (∀ (cfg : DelConfig) (env : DelEnv) (now : Int) (k : String) (r : KeyRecord),
      (processKeyForDeletion cfg env now k r false).status = DelStatus.deleted →
      backfill (processKeyForDeletion cfg env now k r false).stored =
        (processKeyForDeletion cfg env now k r false).stored ∧
      (processKeyForDeletion cfg env now k r false).stored.deletionTime.truthyTime
        = true) := by
  constructor
  · exact fun r a dry hc ht => processKey_tombstone_branch r a dry hc ht
  · intro cfg env now k r hst
    by_cases hsd : shouldDelete cfg.expirationDays now r = true
    · have hls : r.lastSeen ≠ JVal.undef := by
        intro h
        simp [shouldDelete, daysSinceLastSeen, h] at hsd
      have hlsOr : r.lastSeen.orNull = r.lastSeen := by
        cases hlsc : r.lastSeen with
        | undef => exact absurd hlsc hls
        | null => rfl
        | val t => rfl
      cases hep : env.endpointFor (hostnameOf k) with
      | none => simp [processKeyForDeletion, hsd, hep] at hst
      | some apiUrl =>
        cases hdel : (sendDeleteRequest
            (env.delOutcome (apiUrl ++ "/access-keys/" ++ accessKeyOf k))).success with
        | false => simp [processKeyForDeletion, hsd, hep, hdel] at hst
        | true =>
          have h1 : (JVal.val now).orNull = JVal.val now := rfl
          have h2 : (JVal.null : JVal Bool).orNull = JVal.null := rfl
          constructor
          · simp [processKeyForDeletion, hsd, hep, hdel, backfill, hlsOr, h1, h2]
          · simp [processKeyForDeletion, hsd, hep, hdel, JVal.truthyTime]
    · replace hsd : shouldDelete cfg.expirationDays now r = false := by
        simpa using hsd
      simp [processKeyForDeletion, hsd] at hst

/-- C5 amended witness: a concrete field-complete tombstone is returned
unchanged with no write and no report entry. -/
theorem tombstone_immutable_complete_witness :
    processKey ⟨0, .val 7, .null, .null, []⟩ none false =
      ⟨⟨0, .val 7, .null, .null, []⟩, false, false⟩ :=
  tombstone_immutable_complete.1 ⟨0, .val 7, .null, .null, []⟩ none false rfl rfl

/-- Reflexivity of the timestamp non-regression relation. -/
theorem lastSeenLe_refl (x : JVal Int) : lastSeenLe x x :=
  fun t h => ⟨t, h, le_refl t⟩

/-- Backfilling a field cannot regress a timestamp. -/
theorem lastSeenLe_orNull (x : JVal Int) : lastSeenLe x x.orNull :=
  fun t h => ⟨t, by rw [h]; rfl, le_refl t⟩

/-- Transitivity of the timestamp non-regression relation. -/
theorem lastSeenLe_trans {x y z : JVal Int} (h1 : lastSeenLe x y)
    (h2 : lastSeenLe y z) : lastSeenLe x z := by
  intro t h
  obtain ⟨t2, hy, le12⟩ := h1 t h
  obtain ⟨t3, hz, le23⟩ := h2 t2 hy
  exact ⟨t3, hz, le_trans le12 le23⟩

/-- One guarded reconciliation pass cannot regress the stored lastSeen. -/
theorem processKey_step_lastSeen (r : KeyRecord) (a : Option Activity)
    (hs : snapOk r a) :
    lastSeenLe r.lastSeen ((processKey r a false).stored).lastSeen := by
  by_cases hc : backfill r = r
  · by_cases ht : r.deletionTime.truthyTime = true
    · rw [processKey_tombstone_branch r a false hc ht]
      exact lastSeenLe_refl _
    · replace ht : r.deletionTime.truthyTime = false := by simpa using ht
      cases hact : isActiveIn a with
      | false =>
        rw [processKey_inactive_branch r a false hc ht hact]
        by_cases hcf : r.currentlyConnected = JVal.val false
        · simp only [hcf, if_pos]
          exact lastSeenLe_refl _
        · simp only [hcf, if_neg, if_false, Bool.not_false]
          exact lastSeenLe_refl _
      | true =>
        rw [processKey_active_branch r a false hc ht hact]
        cases a with
        | none => simp [isActiveIn] at hact
        | some act =>
          have hpos : 0 < act.totalBytes := by
            simpa [isActiveIn] using hact
          intro t htl
          exact ⟨act.lastSeen, rfl, hs act rfl hpos t htl⟩
  · rw [processKey_backfill_branch r a false hc]
    exact lastSeenLe_orNull _

/-- C6 amended: a pass in which the credential is not active leaves
lastSeen untouched (up to the absent-to-null backfill), and across any
sequence of passes in which no snapshot reports an active timestamp
earlier than the then-stored one, lastSeen never decreases.  (Without that
guard the active branch overwrites lastSeen with the snapshot timestamp
unconditionally: see the counterexample.) -/
theorem lastSeen_monotone_guarded :
    (∀ (r : KeyRecord) (a : Option Activity), isActiveIn a = false →
      (processKey r a false).stored.lastSeen = r.lastSeen.orNull) ∧
    (∀ (r : KeyRecord) (l : List (Option Activity)), snapsOk r l →
      lastSeenLe r.lastSeen (runPasses r l).lastSeen) := by
  constructor
  · intro r a ha
    by_cases hc : backfill r = r
    · by_cases ht : r.deletionTime.truthyTime = true
      · rw [processKey_tombstone_branch r a false hc ht]
        exact (backfill_fields r hc).2.1.symm
      · replace ht : r.deletionTime.truthyTime = false := by simpa using ht
        rw [processKey_inactive_branch r a false hc ht ha]
        by_cases hcf : r.currentlyConnected = JVal.val false
        · simp only [hcf, if_pos]
          exact (backfill_fields r hc).2.1.symm
        · simp only [hcf, if_neg, if_false, Bool.not_false]
          exact (backfill_fields r hc).2.1.symm
    · rw [processKey_backfill_branch r a false hc]
      rfl
  · intro r l
    induction l generalizing r with
    | nil => exact fun _ => lastSeenLe_refl _
    | cons a rest ih =>
      intro hok
      exact lastSeenLe_trans (processKey_step_lastSeen r a hok.1) (ih _ hok.2)

/-- C6 amended witness: one pass over an idle-since-epoch record with a
snapshot timestamp ahead of the stored one does not regress lastSeen. -/
theorem lastSeen_monotone_guarded_witness :
    lastSeenLe (KeyRecord.lastSeen ⟨0, .null, .val 0, .val false, []⟩)
      (runPasses ⟨0, .null, .val 0, .val false, []⟩ [some ⟨1, 5⟩]).lastSeen :=
  lastSeen_monotone_guarded.2 ⟨0, .null, .val 0, .val false, []⟩ [some ⟨1, 5⟩]
    (by
      refine ⟨?_, trivial⟩
      intro act hact hpos t ht
      injection hact with hact2
      injection ht with ht2
      rw [← hact2, ← ht2]
      decide)

/-- A failed backend DELETE comes back as success false. -/
theorem sendDeleteRequest_fail (o : FetchOutcome) (h : o ≠ .ok) :
    (sendDeleteRequest o).success = false := by
  cases o with
  | ok => exact absurd rfl h
  | httpError s b => rfl
  | transportError m => rfl

/-- The deletion predicate is monotone in the run time: a record eligible
now is still eligible at any later run time. -/
theorem shouldDelete_mono (E : ℚ) (now now2 : Int) (r : KeyRecord)
    (h12 : now ≤ now2) (h : shouldDelete E now r = true) :
    shouldDelete E now2 r = true := by
  cases hls : r.lastSeen with
  | undef => simp [shouldDelete, daysSinceLastSeen, hls] at h
  | null =>
    simp only [shouldDelete, daysSinceLastSeen, hls, Bool.and_eq_true,
      decide_eq_true_eq, Bool.not_eq_true'] at h ⊢
    obtain ⟨h1, h2⟩ := h
    refine ⟨lt_of_lt_of_le h1 ?_, h2⟩
    gcongr
  | val t =>
    simp only [shouldDelete, daysSinceLastSeen, hls, Bool.and_eq_true,
      decide_eq_true_eq, Bool.not_eq_true'] at h ⊢
    obtain ⟨h1, h2⟩ := h
    refine ⟨lt_of_lt_of_le h1 ?_, h2⟩
    gcongr

/-- C4: when the backend-side DELETE request fails (non-success status or
transport error), the revocation pass leaves the stored record unchanged
(in particular deletionTime stays unset), issues no store write — its only
effect is the DELETE request itself — records the key with status Error,
and the record still satisfies the deletion predicate at every later run
time. -/
theorem delete_failure_atomic (cfg : DelConfig) (env : DelEnv) (now : Int)
    (k : String) (r : KeyRecord) (apiUrl : String)
    (hsd : shouldDelete cfg.expirationDays now r = true)
    (hep : env.endpointFor (hostnameOf k) = some apiUrl)
    (hfail : env.delOutcome (apiUrl ++ "/access-keys/" ++ accessKeyOf k) ≠ .ok) :
    (processKeyForDeletion cfg env now k r false).stored = r ∧
    (processKeyForDeletion cfg env now k r false).status = .errored ∧
    (processKeyForDeletion cfg env now k r false).effects =
      [Effect.backendDelete (apiUrl ++ "/access-keys/" ++ accessKeyOf k)] ∧
    (∀ now2, now ≤ now2 → shouldDelete cfg.expirationDays now2 r = true) := by
  have hs := sendDeleteRequest_fail _ hfail
  refine ⟨?_, ?_, ?_, fun now2 h12 => shouldDelete_mono _ _ _ _ h12 hsd⟩ <;>
    simp [processKeyForDeletion, hsd, hep, hs]

/-- C4 witness: a transport-failed DELETE for a concrete eligible record
leaves it unchanged with status Error and only the request as effect. -/
theorem delete_failure_atomic_witness :
    (processKeyForDeletion ⟨1, 5, false, []⟩
        ⟨fun _ => some "https://api", fun _ => .transportError "boom",
          fun _ => .fullSuccess⟩ (2 * 86400000) "h-key-x"
        ⟨0, .null, .null, .val false, []⟩ false).stored =
      ⟨0, .null, .null, .val false, []⟩ ∧
    (processKeyForDeletion ⟨1, 5, false, []⟩
        ⟨fun _ => some "https://api", fun _ => .transportError "boom",
          fun _ => .fullSuccess⟩ (2 * 86400000) "h-key-x"
        ⟨0, .null, .null, .val false, []⟩ false).status = .errored :=
  have h := delete_failure_atomic ⟨1, 5, false, []⟩
    ⟨fun _ => some "https://api", fun _ => .transportError "boom",
      fun _ => .fullSuccess⟩ (2 * 86400000) "h-key-x"
    ⟨0, .null, .null, .val false, []⟩ "https://api"
    (by
      simp only [shouldDelete, daysSinceLastSeen, JVal.truthyBool]
      norm_num)
    rfl
    (fun hcontra => FetchOutcome.noConfusion hcontra)
  ⟨h.1, h.2.1⟩

/-- The comparator-sort head is one of the scored entries. -/
theorem pickMinScore_mem (e : String × ℚ) (t : List (String × ℚ)) :
    pickMinScore e t ∈ e :: t := by
  induction t generalizing e with
  | nil => simp [pickMinScore]
  | cons x xs ih =>
    by_cases hx : x.2 < e.2
    · have hunf : pickMinScore e (x :: xs) = pickMinScore x xs := by
        simp [pickMinScore, hx]
      rw [hunf]
      rcases List.mem_cons.mp (ih x) with h1 | h1
      · simp [h1]
      · simp [h1]
    · have hunf : pickMinScore e (x :: xs) = pickMinScore e xs := by
        simp [pickMinScore, hx]
      rw [hunf]
      rcases List.mem_cons.mp (ih e) with h1 | h1
      · simp [h1]
      · simp [h1]

/-- The comparator-sort head has the minimum score. -/
theorem pickMinScore_le (e : String × ℚ) (t : List (String × ℚ)) :
    ∀ q ∈ e :: t, (pickMinScore e t).2 ≤ q.2 := by
  induction t generalizing e with
  | nil =>
    intro q hq
    rw [List.mem_singleton] at hq
    rw [hq]
    exact le_refl _
  | cons x xs ih =>
    intro q hq
    by_cases hx : x.2 < e.2
    · have hunf : pickMinScore e (x :: xs) = pickMinScore x xs := by
        simp [pickMinScore, hx]
      rw [hunf]
      rcases List.mem_cons.mp hq with h1 | h1
      · rw [h1]
        calc (pickMinScore x xs).2 ≤ x.2 := ih x x (List.mem_cons_self x xs)
          _ ≤ e.2 := le_of_lt hx
      · exact ih x q h1
    · have hunf : pickMinScore e (x :: xs) = pickMinScore e xs := by
        simp [pickMinScore, hx]
      rw [hunf]
      rcases List.mem_cons.mp hq with h1 | h1
      · rw [h1]
        exact ih e e (List.mem_cons_self e xs)
      · rcases List.mem_cons.mp h1 with h2 | h2
        · rw [h2]
          calc (pickMinScore e xs).2 ≤ e.2 := ih e e (List.mem_cons_self e xs)
            _ ≤ x.2 := le_of_not_lt hx
        · exact ih e q (List.mem_cons_of_mem e h2)

/-- The score list is empty exactly when every probe was excluded. -/
theorem endpointScores_nil_iff (wL wC : ℚ)
    (probes : List (String × Option ProbeOk)) :
    endpointScores wL wC probes = [] ↔ ∀ p ∈ probes, p.2 = none := by
  induction probes with
  | nil => simp [endpointScores]
  | cons p ps ih =>
    cases hp : p.2 with
    | none =>
      simp only [endpointScores, List.foldr_cons, hp] at ih ⊢
      rw [ih]
      constructor
      · intro h q hq
        rcases List.mem_cons.mp hq with h1 | h1
        · rw [h1]; exact hp
        · exact h q h1
      · intro h q hq
        exact h q (List.mem_cons_of_mem p hq)
    | some pr =>
      simp only [endpointScores, List.foldr_cons, hp]
      constructor
      · intro h
        exact absurd h (List.cons_ne_nil _ _)
      · intro h
        exact absurd hp (by rw [h p (List.mem_cons_self p ps)]; simp)

/-- C7: the endpoint scorer fails with the NoAvailableBackends error
exactly when every backend probe was excluded; any returned backend
carries the minimum of the weighted scores over the non-excluded
backends; and in the concrete scenario with latencies 50 and 20, counts
10 and 100, and weights 0.8 and 0.2, the scores are 42 and 36 and backend
B is selected. -/
theorem endpoint_scorer_spec (wL wC : ℚ)
    (probes : List (String × Option ProbeOk)) :
    (getOptimalApiEndpoint wL wC probes = .error "No available API endpoints." ↔
      ∀ p ∈ probes, p.2 = none) ∧
    (∀ name, getOptimalApiEndpoint wL wC probes = .ok name →
      ∃ s, (name, s) ∈ endpointScores wL wC probes ∧
        ∀ q ∈ endpointScores wL wC probes, s ≤ q.2) ∧
    getOptimalApiEndpoint (4/5) (1/5)
      [("A", some ⟨50, 10⟩), ("B", some ⟨20, 100⟩)] = .ok "B" ∧
    endpointScores (4/5) (1/5)
      [("A", some ⟨50, 10⟩), ("B", some ⟨20, 100⟩)] = [("A", 42), ("B", 36)] := by
  refine ⟨?_, ?_, ?_, ?_⟩
  · rw [← endpointScores_nil_iff wL wC probes]
    cases hsc : endpointScores wL wC probes with
    | nil => simp [getOptimalApiEndpoint, hsc]
    | cons e t => simp [getOptimalApiEndpoint, hsc]
  · intro name h
    cases hsc : endpointScores wL wC probes with
    | nil => rw [getOptimalApiEndpoint, hsc] at h; exact absurd h (by simp)
    | cons e t =>
      rw [getOptimalApiEndpoint, hsc] at h
      have hname : (pickMinScore e t).1 = name := by
        injection h
      refine ⟨(pickMinScore e t).2, ?_, ?_⟩
      · rw [← hname]
        exact pickMinScore_mem e t
      · exact pickMinScore_le e t
  · norm_num [getOptimalApiEndpoint, endpointScores, pickMinScore, score]
  · norm_num [endpointScores, score]

/-- C7 witness: the minimality contract applied to the concrete scenario,
with its hypothesis discharged by the scenario conjunct itself. -/
theorem endpoint_scorer_spec_witness :
    ∃ s, ("B", s) ∈ endpointScores (4/5) (1/5)
        [("A", some ⟨50, 10⟩), ("B", some ⟨20, 100⟩)] ∧
      ∀ q ∈ endpointScores (4/5) (1/5)
        [("A", some ⟨50, 10⟩), ("B", some ⟨20, 100⟩)], s ≤ q.2 :=
  (endpoint_scorer_spec (4/5) (1/5)
      [("A", some ⟨50, 10⟩), ("B", some ⟨20, 100⟩)]).2.1 "B"
    (endpoint_scorer_spec (4/5) (1/5)
      [("A", some ⟨50, 10⟩), ("B", some ⟨20, 100⟩)]).2.2.1

/-- Lookup after a JS object assignment. -/
theorem lookup_setA (m : List (String × Activity)) (k k2 : String)
    (a : Activity) :
    (setA m k a).lookup k2 = if k2 = k then some a else m.lookup k2 := by
  induction m with
  | nil =>
    by_cases h : k2 = k
    · simp [setA, List.lookup, h, beq_iff_eq.mpr h]
    · simp [setA, List.lookup, h, beq_eq_false_iff_ne.mpr h]
  | cons p t ih =>
    by_cases hp : p.1 = k
    · by_cases h2 : k2 = p.1
      · have h3 : k2 = k := h2.trans hp
        simp [setA, List.lookup, hp, h3, beq_iff_eq.mpr h2]
      · have h3 : ¬k2 = k := fun h => h2 (h.trans hp.symm)
        simp [setA, List.lookup, hp, h3, beq_eq_false_iff_ne.mpr h2,
          beq_eq_false_iff_ne.mpr h3]
    · by_cases h2 : k2 = p.1
      · have h3 : ¬k2 = k := fun h => hp (h2.symm.trans h)
        simp [setA, List.lookup, hp, h3, beq_iff_eq.mpr h2]
      · simp [setA, List.lookup, hp, beq_eq_false_iff_ne.mpr h2, ih]

/-- The aggregation invariant: after folding any tail of items over an
accumulator, the entry for a key combines the prior entry with the run of
well-formed tuples carrying that key — bytes summed, latest timestamp
kept. -/
theorem lookup_foldl_addItem (items : List PromItem)
    (m : List (String × Activity)) (k : String) :
    (items.foldl addItem m).lookup k = combineAgg (m.lookup k) (keyEntries k items) := by
  induction items generalizing m with
  | nil =>
    cases hm : m.lookup k <;>
      simp [keyEntries, combineAgg, hm, sumBytes, maxFrom]
  | cons it rest ih =>
    rw [List.foldl_cons, ih (addItem m it)]
    cases hak : it.accessKey with
    | none => simp [addItem, hak, keyEntries]
    | some k0 =>
      cases hv : it.value with
      | none => simp [addItem, hak, hv, keyEntries]
      | some v =>
        obtain ⟨ts, bytes⟩ := v
        by_cases hk : k0 = k
        · subst hk
          have hke : keyEntries k0 (it :: rest) =
              (ts, bytes) :: keyEntries k0 rest := by
            simp [keyEntries, hak, hv]
          rw [hke]
          cases hm : m.lookup k0 with
          | none =>
            have hlk : (addItem m it).lookup k0 =
                some { totalBytes := bytes, lastSeen := ts } := by
              simp [addItem, hak, hv, hm, lookup_setA]
            rw [hlk]
            simp [combineAgg, sumBytes]
          | some a =>
            have hmax : (if a.lastSeen < ts then ts else a.lastSeen) =
                max a.lastSeen ts := by
              split_ifs with h1 <;> omega
            have hlk : (addItem m it).lookup k0 =
                some { totalBytes := a.totalBytes + bytes
                       lastSeen := max a.lastSeen ts } := by
              simp [addItem, hak, hv, hm, lookup_setA, hmax]
            rw [hlk]
            simp only [combineAgg, sumBytes, maxFrom, List.map_cons,
              List.sum_cons, List.foldl_cons]
            refine congrArg some (congrArg₂ Activity.mk ?_ rfl)
            ring
        · have hke : keyEntries k (it :: rest) = keyEntries k rest := by
            simp [keyEntries, hak, hv, hk]
          have hne : ¬k = k0 := fun h => hk h.symm
          have hlk : (addItem m it).lookup k = m.lookup k := by
            cases hm : m.lookup k0 <;>
              simp [addItem, hak, hv, hm, lookup_setA, hne]
          rw [hke, hlk]

/-- C8: the usage oracle adapter returns success true exactly on a
well-shaped result array; every failure shape (transport error, failed
query, malformed payload) is reported through the success flag with a
diagnostic message rather than an exception; and on success the map holds,
for each key id occurring in the result set, the sum of its byte counts
and the latest of its timestamps, with keys not occurring absent. -/
theorem usage_oracle_spec (o : PromOutcome) :
    ((queryActiveKeys o).success = true ↔ ∃ items, o = .ok items) ∧
    ((queryActiveKeys o).success = false → (queryActiveKeys o).error.isSome = true) ∧
    (∀ items k, o = .ok items →
      ((queryActiveKeys o).data.lookup k = none ↔ keyEntries k items = []) ∧
      (∀ e es, keyEntries k items = e :: es →
        (queryActiveKeys o).data.lookup k =
          some { totalBytes := sumBytes (e :: es), lastSeen := tsMax (e :: es) })) := by
  refine ⟨?_, ?_, ?_⟩
  · cases o <;> simp [queryActiveKeys]
  · cases o <;> simp [queryActiveKeys]
  · intro items k ho
    subst ho
    have hagg : (queryActiveKeys (.ok items)).data.lookup k =
        combineAgg none (keyEntries k items) := by
      simpa [queryActiveKeys, aggregateActiveKeys] using
        lookup_foldl_addItem items [] k
    constructor
    · rw [hagg]
      cases hke : keyEntries k items <;> simp [combineAgg]
    · intro e es hke
      rw [hagg, hke]
      simp [combineAgg, tsMax, maxFrom]

/-- C8 witness: two tuples for the same key id accumulate to the sum of
their byte counts with the later timestamp. -/
theorem usage_oracle_spec_witness :
    (queryActiveKeys (.ok [⟨some "k1", some (5, 3)⟩, ⟨some "k1", some (2, 4)⟩])).data.lookup "k1" =
      some { totalBytes := sumBytes [(5, 3), (2, 4)]
             lastSeen := tsMax [(5, 3), (2, 4)] } :=
  ((usage_oracle_spec (.ok [⟨some "k1", some (5, 3)⟩, ⟨some "k1", some (2, 4)⟩])).2.2
      [⟨some "k1", some (5, 3)⟩, ⟨some "k1", some (2, 4)⟩] "k1" rfl).2
    (5, 3) [(2, 4)] (by simp [keyEntries])

/-- A guarded foldr over elements whose guard is everywhere false collects
nothing. -/
theorem foldr_guard_nil {α β : Type} (l : List α) (g : α → Bool) (f : α → β)
    (hg : ∀ x ∈ l, g x = false) :
    l.foldr (fun x acc => if g x then f x :: acc else acc) [] = ([] : List β) := by
  induction l with
  | nil => rfl
  | cons x t ih =>
    rw [List.foldr_cons, hg x (List.mem_cons_self x t)]
    simp only [Bool.false_eq_true, if_false]
    exact ih (fun y hy => hg y (List.mem_cons_of_mem x hy))

/-- A foldr concatenating empty lists collects nothing. -/
theorem foldr_append_nil {α β : Type} (l : List α) (f : α → List β)
    (hf : ∀ x ∈ l, f x = []) :
    l.foldr (fun x acc => f x ++ acc) [] = ([] : List β) := by
  induction l with
  | nil => rfl
  | cons x t ih =>
    rw [List.foldr_cons, hf x (List.mem_cons_self x t)]
    rw [List.nil_append]
    exact ih (fun y hy => hf y (List.mem_cons_of_mem x hy))

/-- A dry reconciliation pass never writes, and whether a key is reported
does not depend on the dry-run flag. -/
theorem processKey_dry (r : KeyRecord) (a : Option Activity) :
    (processKey r a true).wrote = false ∧
    (processKey r a true).reported = (processKey r a false).reported := by
  by_cases hc : backfill r = r
  · by_cases ht : r.deletionTime.truthyTime = true
    · rw [processKey_tombstone_branch r a true hc ht,
        processKey_tombstone_branch r a false hc ht]
      exact ⟨rfl, rfl⟩
    · replace ht : r.deletionTime.truthyTime = false := by simpa using ht
      cases hact : isActiveIn a with
      | false =>
        rw [processKey_inactive_branch r a true hc ht hact,
          processKey_inactive_branch r a false hc ht hact]
        by_cases hcf : r.currentlyConnected = JVal.val false <;> simp [hcf]
      | true =>
        rw [processKey_active_branch r a true hc ht hact,
          processKey_active_branch r a false hc ht hact]
        exact ⟨rfl, rfl⟩
  · rw [processKey_backfill_branch r a true hc,
      processKey_backfill_branch r a false hc]
    exact ⟨rfl, rfl⟩

/-- One-step unfolding of the page loop of processKeysForHostname, for use
at specific arguments. -/
theorem pkfh_unfold (snap : List (String × Activity)) (isDryRun : Bool)
    (keys : List NamedKey) (i m : Nat) :
    processKeysForHostname snap isDryRun keys i m =
      (let page := (keys.drop i).take (min m 1000)
       let outs := page.map
         (fun k => (k.name, processKey k.record (snap.lookup (extKeyId k.name)) isDryRun))
       let writes := outs.foldr
         (fun p acc => if p.2.wrote then Effect.putKey p.1 p.2.stored :: acc else acc) []
       let reported := outs.foldr
         (fun p acc => if p.2.reported then p.1 :: acc else acc) []
       let j := i + page.length
       if _h : j < keys.length ∧ page.length < m then
         let rest := processKeysForHostname snap isDryRun keys j (m - page.length)
         { processed := page.length + rest.processed
           nextCursor := rest.nextCursor
           writes := writes ++ rest.writes
           reported := reported ++ rest.reported }
       else
         { processed := page.length
           nextCursor := if j < keys.length then some j else none
           writes := writes
           reported := reported }) := by
  rw [processKeysForHostname]

/-- Reporting a page of keys is independent of the dry-run flag. -/
theorem page_reported_eq (snap : List (String × Activity))
    (page : List NamedKey) :
    (page.map (fun k =>
        (k.name, processKey k.record (snap.lookup (extKeyId k.name)) true))).foldr
      (fun p acc => if p.2.reported then p.1 :: acc else acc) [] =
    (page.map (fun k =>
        (k.name, processKey k.record (snap.lookup (extKeyId k.name)) false))).foldr
      (fun p acc => if p.2.reported then p.1 :: acc else acc) [] := by
  induction page with
  | nil => rfl
  | cons k t ih =>
    simp only [List.map_cons, List.foldr_cons,
      (processKey_dry k.record (snap.lookup (extKeyId k.name))).2, ih]

/-- A dry run of the page loop issues no writes and produces the same
report, count and cursor as the wet run. -/
theorem pkfh_dry_wet (snap : List (String × Activity)) (keys : List NamedKey)
    (i m : Nat) :
    (processKeysForHostname snap true keys i m).writes = [] ∧
    (processKeysForHostname snap true keys i m).reported =
      (processKeysForHostname snap false keys i m).reported ∧
    (processKeysForHostname snap true keys i m).processed =
      (processKeysForHostname snap false keys i m).processed ∧
    (processKeysForHostname snap true keys i m).nextCursor =
      (processKeysForHostname snap false keys i m).nextCursor := by
  induction i, m using processKeysForHostname.induct snap true keys with
  | case1 i m page j h ih =>
    have h2 : i + ((keys.drop i).take (min m 1000)).length < keys.length ∧
        ((keys.drop i).take (min m 1000)).length < m := h
    rw [pkfh_unfold snap true keys i m, pkfh_unfold snap false keys i m]
    simp only []
    rw [dif_pos h2, dif_pos h2]
    have hw : (((keys.drop i).take (min m 1000)).map
        (fun k => (k.name, processKey k.record (snap.lookup (extKeyId k.name)) true))).foldr
        (fun p acc => if p.2.wrote then Effect.putKey p.1 p.2.stored :: acc else acc) [] =
          ([] : List Effect) := by
      refine foldr_guard_nil _ _ _ ?_
      intro x hx
      rcases List.mem_map.mp hx with ⟨k, _, hk⟩
      rw [← hk]
      exact (processKey_dry k.record (snap.lookup (extKeyId k.name))).1
    refine ⟨?_, ?_, ?_, ?_⟩
    · simp only [hw, List.nil_append]
      exact ih.1
    · simp only [page_reported_eq snap, ih.2.1]
    · simp only [ih.2.2.1]
    · exact ih.2.2.2
  | case2 i m page j h =>
    have h2 : ¬(i + ((keys.drop i).take (min m 1000)).length < keys.length ∧
        ((keys.drop i).take (min m 1000)).length < m) := h
    rw [pkfh_unfold snap true keys i m, pkfh_unfold snap false keys i m]
    simp only []
    rw [dif_neg h2, dif_neg h2]
    have hw : (((keys.drop i).take (min m 1000)).map
        (fun k => (k.name, processKey k.record (snap.lookup (extKeyId k.name)) true))).foldr
        (fun p acc => if p.2.wrote then Effect.putKey p.1 p.2.stored :: acc else acc) [] =
          ([] : List Effect) := by
      refine foldr_guard_nil _ _ _ ?_
      intro x hx
      rcases List.mem_map.mp hx with ⟨k, _, hk⟩
      rw [← hk]
      exact (processKey_dry k.record (snap.lookup (extKeyId k.name))).1
    exact ⟨hw, page_reported_eq snap _, rfl, rfl⟩

/-- A dry run of the backend loop of updateAccessKeys issues no writes and
produces the same updatedKeys report as the wet run. -/
theorem updateLoop_dry_wet (maxKeys : Nat) (bs : List UpdBackend) :
    ∀ (sh : Option String) (cur : Option Nat) (g : Nat),
    (updateLoop true maxKeys sh cur g bs).writes = [] ∧
    (updateLoop true maxKeys sh cur g bs).reported =
      (updateLoop false maxKeys sh cur g bs).reported := by
  induction bs with
  | nil => intro sh cur g; exact ⟨rfl, rfl⟩
  | cons b rest ih =>
    intro sh cur g
    by_cases hskip : sh ≠ none ∧ sh ≠ some b.name
    · simp only [updateLoop, if_pos hskip]
      exact ih sh cur g
    · simp only [updateLoop, if_neg hskip]
      cases hb : b.prep with
      | noEndpoint =>
        simp only []
        exact ih none cur g
      | badEndpointData =>
        simp only []
        exact ih none cur g
      | oracleFail =>
        simp only []
        exact ih none cur g
      | ready snap =>
        simp only []
        obtain ⟨hw, hr, hp, _⟩ :=
          pkfh_dry_wet snap b.keys (cur.getD 0) (maxKeys - g)
        rw [hp]
        by_cases hbud : maxKeys ≤ g +
            (processKeysForHostname snap false b.keys (cur.getD 0) (maxKeys - g)).processed
        · simp only [if_pos hbud]
          exact ⟨hw, hr⟩
        · simp only [if_neg hbud]
          obtain ⟨tw, tr⟩ := ih none none
            (g + (processKeysForHostname snap false b.keys (cur.getD 0) (maxKeys - g)).processed)
          refine ⟨?_, ?_⟩
          · rw [hw, List.nil_append]
            exact tw
          · rw [hr, tr]

/-- A dry revocation pass issues no effects, stores nothing, and reports
status Would delete exactly when the deletion predicate holds. -/
theorem pkfd_dry (cfg : DelConfig) (env : DelEnv) (now : Int) (k : String)
    (r : KeyRecord) :
    (processKeyForDeletion cfg env now k r true).effects = [] ∧
    (processKeyForDeletion cfg env now k r true).stored = r ∧
    ((processKeyForDeletion cfg env now k r true).status = DelStatus.wouldDelete ↔
      shouldDelete cfg.expirationDays now r = true) := by
  cases hsd : shouldDelete cfg.expirationDays now r <;>
    simp [processKeyForDeletion, hsd]

/-- The report entry of a revocation pass always carries the processed
key's name. -/
theorem pkfd_keyName (cfg : DelConfig) (env : DelEnv) (now : Int) (k : String)
    (r : KeyRecord) (dry : Bool) :
    (processKeyForDeletion cfg env now k r dry).keyName = k := by
  unfold processKeyForDeletion
  simp only []
  repeat' split
  all_goals rfl

/-- The key names of a page of revocation report entries are the listed key
names, for either dry-run flag. -/
theorem outs_keyName (cfg : DelConfig) (env : DelEnv) (now : Int) (dry : Bool)
    (page : List NamedKey) :
    ((page.map (fun k => processKeyForDeletion cfg env now k.name k.record dry)).map
      DelKeyOut.keyName) = page.map NamedKey.name := by
  induction page with
  | nil => rfl
  | cons k t ih =>
    simp only [List.map_cons, pkfd_keyName, ih]

/-- One-step unfolding of the page loop of processKeysForServer, for use at
specific arguments. -/
theorem pkfsl_unfold (cfg : DelConfig) (env : DelEnv) (now : Int)
    (isDryRun : Bool) (server : String) (keys : List NamedKey) (i count : Nat) :
    processKeysForServerLoop cfg env now isDryRun server keys i count =
      (let page := (keys.drop i).take (min (cfg.maxKeysPerRun - count) 1000)
       let outs := page.map
         (fun k => processKeyForDeletion cfg env now k.name k.record isDryRun)
       let j := i + page.length
       let cur : Option Nat := if j < keys.length then some j else none
       let count2 := count + page.length
       if 0 < page.length ∧ cfg.maxKeysPerRun ≤ count2 then
         { entries := outs
           errors := []
           nextCursor := some (server, cur)
           effects := outs.foldr (fun o acc => o.effects ++ acc) [] }
       else if _h : j < keys.length ∧ 0 < page.length then
         let rest := processKeysForServerLoop cfg env now isDryRun server keys j count2
         { entries := outs ++ rest.entries
           errors := rest.errors
           nextCursor := rest.nextCursor
           effects := outs.foldr (fun o acc => o.effects ++ acc) [] ++ rest.effects }
       else
         { entries := outs
           errors := []
           nextCursor := none
           effects := outs.foldr (fun o acc => o.effects ++ acc) [] }) := by
  rw [processKeysForServerLoop]

/-- A dry run of the revocation page loop issues no effects, processes the
same key names as the wet run, and each of its entries is an untouched
record whose status is Would delete exactly when the deletion predicate
holds for it. -/
theorem pkfsl_dry_wet (cfg : DelConfig) (env : DelEnv) (now : Int)
    (server : String) (keys : List NamedKey) (i count : Nat) :
    (processKeysForServerLoop cfg env now true server keys i count).effects = [] ∧
    (processKeysForServerLoop cfg env now true server keys i count).entries.map
        DelKeyOut.keyName =
      (processKeysForServerLoop cfg env now false server keys i count).entries.map
        DelKeyOut.keyName ∧
    (∀ e ∈ (processKeysForServerLoop cfg env now true server keys i count).entries,
      e.effects = [] ∧
      (e.status = DelStatus.wouldDelete ↔
        shouldDelete cfg.expirationDays now e.stored = true)) := by
  have houts : ∀ page : List NamedKey,
      (∀ e ∈ page.map (fun k => processKeyForDeletion cfg env now k.name k.record true),
        e.effects = [] ∧
        (e.status = DelStatus.wouldDelete ↔
          shouldDelete cfg.expirationDays now e.stored = true)) := by
    intro page e he
    rcases List.mem_map.mp he with ⟨k, _, hk⟩
    obtain ⟨h1, h2, h3⟩ := pkfd_dry cfg env now k.name k.record
    rw [← hk]
    refine ⟨h1, ?_⟩
    rw [h2]
    exact h3
  have heff : ∀ page : List NamedKey,
      ((page.map (fun k => processKeyForDeletion cfg env now k.name k.record true)).foldr
        (fun o acc => o.effects ++ acc) []) = ([] : List Effect) := by
    intro page
    refine foldr_append_nil _ _ ?_
    intro x hx
    rcases List.mem_map.mp hx with ⟨k, _, hk⟩
    rw [← hk]
    exact (pkfd_dry cfg env now k.name k.record).1
  induction i, count using processKeysForServerLoop.induct cfg env now true server keys with
  | case1 i count page count2 h =>
    have h2 : 0 < ((keys.drop i).take (min (cfg.maxKeysPerRun - count) 1000)).length ∧
        cfg.maxKeysPerRun ≤
          count + ((keys.drop i).take (min (cfg.maxKeysPerRun - count) 1000)).length := h
    rw [pkfsl_unfold cfg env now true server keys i count,
      pkfsl_unfold cfg env now false server keys i count]
    simp only []
    rw [if_pos h2, if_pos h2]
    refine ⟨heff _, ?_, houts _⟩
    rw [outs_keyName, outs_keyName]
  | case2 i count page j count2 h hrec ih =>
    have h2 : ¬(0 < ((keys.drop i).take (min (cfg.maxKeysPerRun - count) 1000)).length ∧
        cfg.maxKeysPerRun ≤
          count + ((keys.drop i).take (min (cfg.maxKeysPerRun - count) 1000)).length) := h
    have h3 : i + ((keys.drop i).take (min (cfg.maxKeysPerRun - count) 1000)).length <
          keys.length ∧
        0 < ((keys.drop i).take (min (cfg.maxKeysPerRun - count) 1000)).length := hrec
    rw [pkfsl_unfold cfg env now true server keys i count,
      pkfsl_unfold cfg env now false server keys i count]
    simp only []
    rw [if_neg h2, if_neg h2, dif_pos h3, dif_pos h3]
    obtain ⟨ie, ik, ip⟩ := ih
    refine ⟨?_, ?_, ?_⟩
    · rw [heff _, List.nil_append]
      exact ie
    · simp only [List.map_append, outs_keyName, ik]
    · intro e he
      rcases List.mem_append.mp he with he1 | he1
      · exact houts _ e he1
      · exact ip e he1
  | case3 i count page j count2 h hnorec =>
    have h2 : ¬(0 < ((keys.drop i).take (min (cfg.maxKeysPerRun - count) 1000)).length ∧
        cfg.maxKeysPerRun ≤
          count + ((keys.drop i).take (min (cfg.maxKeysPerRun - count) 1000)).length) := h
    have h3 : ¬(i + ((keys.drop i).take (min (cfg.maxKeysPerRun - count) 1000)).length <
          keys.length ∧
        0 < ((keys.drop i).take (min (cfg.maxKeysPerRun - count) 1000)).length) := hnorec
    rw [pkfsl_unfold cfg env now true server keys i count,
      pkfsl_unfold cfg env now false server keys i count]
    simp only []
    rw [if_neg h2, if_neg h2, dif_neg h3, dif_neg h3]
    refine ⟨heff _, ?_, houts _⟩
    rw [outs_keyName, outs_keyName]

/-- A dry run of the revocation hostname loop issues no effects, processes
the same key names as the wet run, and reports Would delete exactly on the
keys satisfying the deletion predicate. -/
theorem pakl_dry_wet (cfg : DelConfig) (env : DelEnv) (now : Int)
    (backends : List DelBackend) :
    ∀ sh : Option String,
    (processAllKeysLoop cfg env now true sh backends).effects = [] ∧
    (processAllKeysLoop cfg env now true sh backends).entries.map
        DelKeyOut.keyName =
      (processAllKeysLoop cfg env now false sh backends).entries.map
        DelKeyOut.keyName ∧
    (∀ e ∈ (processAllKeysLoop cfg env now true sh backends).entries,
      e.effects = [] ∧
      (e.status = DelStatus.wouldDelete ↔
        shouldDelete cfg.expirationDays now e.stored = true)) := by
  induction backends with
  | nil =>
    intro sh
    refine ⟨rfl, rfl, ?_⟩
    intro e he
    simp [processAllKeysLoop] at he
  | cons b rest ih =>
    intro sh
    by_cases hskip : sh ≠ none ∧ sh ≠ some b.name
    · simp only [processAllKeysLoop, if_pos hskip]
      exact ih sh
    · simp only [processAllKeysLoop, if_neg hskip, processKeysForServer]
      obtain ⟨se, sk, sp⟩ := pkfsl_dry_wet cfg env now b.name b.keys 0 0
      obtain ⟨te, tk, tp⟩ := ih none
      refine ⟨?_, ?_, ?_⟩
      · rw [se, te, List.nil_append]
      · simp only [List.map_append]
        rw [sk, tk]
      · intro e he
        rcases List.mem_append.mp he with he1 | he1
        · exact sp e he1
        · exact tp e he1

/-- C9: with the dry-run flag set, a reconciliation or revocation
invocation performs no mutating operation at all — no credential-store
put, no backend-side DELETE, no S3 deletion, and no cursor-state put or
delete — while the reconciliation report still lists exactly the keys the
wet run would have written, and the revocation report covers the same
keys as the wet run, marking Would delete exactly those satisfying the
deletion predicate. -/
theorem dry_run_no_effects (maxKeys : Nat) (sc : Option (String × Option Nat))
    (bs : List UpdBackend) (cfg : DelConfig) (env : DelEnv) (now : Int)
    (sh : Option String) (dbs : List DelBackend) :
    (updateScheduledRun true maxKeys sc bs).2 = [] ∧
    (deleteScheduledRun cfg env now true sh dbs).2 = [] ∧
    (updateScheduledRun true maxKeys sc bs).1.reported =
      (updateScheduledRun false maxKeys sc bs).1.reported ∧
    (deleteScheduledRun cfg env now true sh dbs).1.entries.map
        DelKeyOut.keyName =
      (deleteScheduledRun cfg env now false sh dbs).1.entries.map
        DelKeyOut.keyName ∧
    (∀ e ∈ (deleteScheduledRun cfg env now true sh dbs).1.entries,
      e.effects = [] ∧
      (e.status = DelStatus.wouldDelete ↔
        shouldDelete cfg.expirationDays now e.stored = true)) := by
  obtain ⟨uw, ur⟩ :=
    updateLoop_dry_wet maxKeys bs (sc.map Prod.fst) (sc.bind Prod.snd) 0
  obtain ⟨de, dk, dp⟩ := pakl_dry_wet cfg env now dbs sh
  refine ⟨?_, ?_, ?_, ?_, ?_⟩
  · simp only [updateScheduledRun, updateAccessKeys]
    rw [uw]
    rfl
  · simp only [deleteScheduledRun, processAllKeys]
    rw [de]
    rfl
  · simp only [updateScheduledRun, updateAccessKeys]
    exact ur
  · simp only [deleteScheduledRun, processAllKeys]
    exact dk
  · simp only [deleteScheduledRun, processAllKeys]
    exact dp

/-- C9 witness: a dry reconciliation run and a dry revocation run over one
backend holding one credential that the wet run would delete produce no
effects at all. -/
theorem dry_run_no_effects_witness :
    (updateScheduledRun true 5 none
      [⟨"h1", .ready [], [⟨"h1-key-a", ⟨0, .null, .null, .val false, []⟩⟩]⟩]).2 = [] ∧
    (deleteScheduledRun ⟨1, 5, true, ["p"]⟩
      ⟨fun _ => some "u", fun _ => .ok, fun _ => .fullSuccess⟩ (2 * 86400000)
      true none
      [⟨"h1", [⟨"h1-key-a", ⟨0, .null, .null, .val false, []⟩⟩]⟩]).2 = [] :=
  ⟨(dry_run_no_effects 5 none
      [⟨"h1", .ready [], [⟨"h1-key-a", ⟨0, .null, .null, .val false, []⟩⟩]⟩]
      ⟨1, 5, true, ["p"]⟩
      ⟨fun _ => some "u", fun _ => .ok, fun _ => .fullSuccess⟩ (2 * 86400000)
      none [⟨"h1", [⟨"h1-key-a", ⟨0, .null, .null, .val false, []⟩⟩]⟩]).1,
    (dry_run_no_effects 5 none
      [⟨"h1", .ready [], [⟨"h1-key-a", ⟨0, .null, .null, .val false, []⟩⟩]⟩]
      ⟨1, 5, true, ["p"]⟩
      ⟨fun _ => some "u", fun _ => .ok, fun _ => .fullSuccess⟩ (2 * 86400000)
      none [⟨"h1", [⟨"h1-key-a", ⟨0, .null, .null, .val false, []⟩⟩]⟩]).2.1⟩

end FreeSocks
